import Mathlib

/-!
Verification of the toolkit helper library (`tools.go`) against its
natural-language specification.

The Go source is shallowly embedded: pure string manipulation becomes Lean
functions on `String`/`List Char`; the multipart upload pipeline and the JSON
decode pipeline become explicit state passing over a `Tools` configuration
record, with the external collaborators (filesystem, request body stream,
content sniffer, cryptographically secure randomness) modelled as explicit
parameters or injected outcomes, exactly at the interface the spec draws.
-/

namespace Toolkit

/-! ## Alphabet pools and options (tools.go lines 19-53)

The Go constants, copied character for character.  Note the lowercase run of
`randomStringSource` is "abcdefghijklmnopqrstuvwyz": it has 25 letters and
skips 'x', while the uppercase run has all 26 letters. -/

def randomStringSource : String := "abcdefghijklmnopqrstuvwyzABCDEFGHIJKLMNOPQRSTUVWXYZ"

def numbers : String := "0123456789"

def specialChars : String := "_-!@#$%^&*()"

/-- The four provided `RandOption` values (`DigitsOnly`, `CharactersOnly`,
`WithSpecialChars`, `WithAll`).  In Go a `RandOption` is `func() string`;
the library ships exactly these four. -/
inductive RandOption
  | digitsOnly
  | charactersOnly
  | withSpecialChars
  | withAll
deriving DecidableEq

/-- The string each option returns when called (`opt()`). `WithAll`
concatenates the three pools in source order. -/
def RandOption.run : RandOption → String
  | .digitsOnly => numbers
  | .charactersOnly => randomStringSource
  | .withSpecialChars => specialChars
  | .withAll => randomStringSource ++ numbers ++ specialChars

/-- The `source` string `RandomString` assembles: `WithAll()` when no option
is given, otherwise the concatenation `source += opt()` over the options in
order (tools.go lines 59-67). -/
def randomSource (opts : List RandOption) : String :=
  if opts.isEmpty then RandOption.withAll.run
  else opts.foldl (fun acc o => acc ++ o.run) ""

/-- `RandomString` (tools.go lines 58-77).  Per position `i` the code draws
`p, _ := rand.Prime(rand.Reader, len(r))` and picks `r[p.Uint64() % len(r)]`.
The randomness is modelled by the oracle `rnd : Nat → Nat` giving the value of
`p.Uint64()` at iteration `i`; the constraint that it is a prime of bit length
`len(r)` is `primeOfBits` below and is assumed only where a claim needs it.
`List.getD` with default `' '` models the (never reached, since every
assembled source is non-empty) out-of-range panic. -/
def RandomString (n : Nat) (opts : List RandOption) (rnd : Nat → Nat) : String :=
  let r := (randomSource opts).toList
  String.mk ((List.range n).map fun i => r.getD (rnd i % r.length) ' ')

/-- What `crypto/rand.Prime(rand.Reader, bits)` returns: a prime with exactly
`bits` bits (the implementation sets the two most significant bits, so the
lower bound here is even slightly generous). -/
def primeOfBits (bits p : Nat) : Prop :=
  Nat.Prime p ∧ 2 ^ (bits - 1) ≤ p ∧ p < 2 ^ bits

/-! ### Basic facts about the assembled source -/

theorem length_foldl_append (os : List RandOption) :
    ∀ acc : String, acc.length ≤ (os.foldl (fun a o => a ++ o.run) acc).length := by
  induction os with
  | nil => intro acc; exact le_refl _
  | cons o os ih =>
    intro acc
    have h1 : acc.length ≤ (acc ++ o.run).length := by
      rw [String.length_append]; omega
    exact le_trans h1 (ih (acc ++ o.run))

theorem randomSource_length_pos (opts : List RandOption) :
    0 < (randomSource opts).length := by
  cases opts with
  | nil => decide
  | cons o os =>
    show 0 < ((o :: os).foldl (fun a o => a ++ o.run) "").length
    have h2 : ("" ++ o.run).length ≤ ((o :: os).foldl (fun a o => a ++ o.run) "").length := by
      exact length_foldl_append os ("" ++ o.run)
    have h3 : 0 < ("" ++ o.run).length := by
      cases o <;> decide
    omega

theorem toList_length (s : String) : s.toList.length = s.length := rfl

theorem getD_mem_of_lt {α : Type} (l : List α) (i : Nat) (d : α) (h : i < l.length) :
    l.getD i d ∈ l := by
  induction l generalizing i with
  | nil => simp at h
  | cons a t ih =>
    cases i with
    | zero => simp [List.getD]
    | succ j =>
      have : j < t.length := by simpa using h
      simpa [List.getD] using Or.inr (ih j this)

theorem mem_randomString_iff (n : Nat) (opts : List RandOption) (rnd : Nat → Nat)
    (c : Char) (h : c ∈ (RandomString n opts rnd).toList) :
    c ∈ (randomSource opts).toList := by
  have hpos : 0 < (randomSource opts).toList.length := by
    rw [toList_length]; exact randomSource_length_pos opts
  simp only [RandomString, String.toList] at h
  rcases List.mem_map.mp h with ⟨i, _, hc⟩
  subst hc
  exact getD_mem_of_lt _ _ _ (Nat.mod_lt _ hpos)

theorem mem_foldl_append (c : Char) (os : List RandOption) :
    ∀ acc : String, c ∈ (os.foldl (fun a o => a ++ o.run) acc).toList ↔
      c ∈ acc.toList ∨ ∃ o ∈ os, c ∈ o.run.toList := by
  induction os with
  | nil => intro acc; simp
  | cons o os ih =>
    intro acc
    show c ∈ (os.foldl (fun a o => a ++ o.run) (acc ++ o.run)).toList ↔ _
    rw [ih (acc ++ o.run)]
    constructor
    · rintro (hm | hm)
      · rcases List.mem_append.mp hm with hm | hm
        · exact Or.inl hm
        · exact Or.inr ⟨o, List.mem_cons_self o os, hm⟩
      · rcases hm with ⟨o2, ho2, hc2⟩
        exact Or.inr ⟨o2, List.mem_cons_of_mem o ho2, hc2⟩
    · rintro (hm | ⟨o2, ho2, hc2⟩)
      · exact Or.inl (List.mem_append.mpr (Or.inl hm))
      · rcases List.mem_cons.mp ho2 with he | ho3
        · subst he; exact Or.inl (List.mem_append.mpr (Or.inr hc2))
        · exact Or.inr ⟨o2, ho3, hc2⟩

theorem x_not_mem_randomSource (opts : List RandOption) :
    'x' ∉ (randomSource opts).toList := by
  cases opts with
  | nil => decide
  | cons o os =>
    show 'x' ∉ ((o :: os).foldl (fun a o => a ++ o.run) "").toList
    intro h
    rcases (mem_foldl_append 'x' (o :: os) "").mp h with hm | ⟨o2, _, hc2⟩
    · simp at hm
    · cases o2 <;> revert hc2 <;> decide

/-- C9: for all n ≥ 0 and every combination of alphabet options,
`RandomString(n)` returns a string of exactly n characters, each of which
belongs to the active alphabet assembled from the selected options (the full
combined alphabet when no option is given). -/
theorem randomString_length_and_alphabet (n : Nat) (opts : List RandOption) (rnd : Nat → Nat) :
    (RandomString n opts rnd).length = n ∧
    (∀ c ∈ (RandomString n opts rnd).toList, c ∈ (randomSource opts).toList) ∧
    randomSource [] = RandOption.withAll.run := by
  refine ⟨?_, fun c hc => mem_randomString_iff n opts rnd c hc, rfl⟩
  show ((List.range n).map _).length = n
  simp

/-- C10: for every n and every combination of alphabet options, the string
returned by `RandomString` never contains the lowercase character 'x': the
letter pool omits 'x' and no other pool supplies it. -/
theorem randomString_never_x (n : Nat) (opts : List RandOption) (rnd : Nat → Nat) :
    'x' ∉ (RandomString n opts rnd).toList ∧
    (RandomString n opts rnd).toList.count 'x' = 0 := by
  have hx : 'x' ∉ (RandomString n opts rnd).toList := fun hm =>
    x_not_mem_randomSource opts (mem_randomString_iff n opts rnd 'x' hm)
  exact ⟨hx, List.count_eq_zero.mpr hx⟩

/-- C3: the index selection of `RandomString` is NOT uniform and index 0 is
NOT attainable.  With the digits-only alphabet (length 10) the index is
`p mod 10` for a 10-bit prime `p`; such a `p` is odd and not divisible by 5,
so index 0 — the character '0' — can never be selected, contradicting the
claimed uniform selection in which every index is attainable. -/
theorem randomString_digits_zero_unreachable (n : Nat) (rnd : Nat → Nat)
    (h : ∀ i, primeOfBits (randomSource [RandOption.digitsOnly]).length (rnd i)) :
    (RandomString n [RandOption.digitsOnly] rnd).toList.count '0' = 0 ∧
    '0' ∉ (RandomString n [RandOption.digitsOnly] rnd).toList := by
  have hmod : ∀ i, rnd i % 10 ≠ 0 := by
    intro i h0
    obtain ⟨hp, hlow, hhigh⟩ := h i
    have hlen : (randomSource [RandOption.digitsOnly]).length = 10 := by decide
    rw [hlen] at hlow
    have h10 : (10 : ℕ) ∣ rnd i := Nat.dvd_of_mod_eq_zero h0
    have h2 : (2 : ℕ) ∣ rnd i := dvd_trans (by norm_num) h10
    rcases Nat.Prime.eq_one_or_self_of_dvd hp 2 h2 with h1 | h1
    · omega
    · rw [← h1] at hlow; norm_num at hlow
  have hnot : '0' ∉ (RandomString n [RandOption.digitsOnly] rnd).toList := by
    intro hmem
    simp only [RandomString, String.toList] at hmem
    rcases List.mem_map.mp hmem with ⟨i, _, hc⟩
    have hj : (randomSource [RandOption.digitsOnly]).data.length = 10 := by decide
    rw [hj] at hc
    have hd : ∀ j : Nat, j < 10 → j ≠ 0 →
        (randomSource [RandOption.digitsOnly]).data.getD j ' ' ≠ '0' := by decide
    exact hd _ (Nat.mod_lt _ (by norm_num)) (hmod i) hc
  exact ⟨List.count_eq_zero.mpr hnot, hnot⟩

/-- Witness for C3's theorem: 521 is a 10-bit prime, and with the oracle
constantly 521 the digits-only random string indeed never contains '0'. -/
theorem randomString_digits_zero_unreachable_witness :
    (RandomString 3 [RandOption.digitsOnly] (fun _ => 521)).toList.count '0' = 0 :=
  (randomString_digits_zero_unreachable 3 (fun _ => 521)
    (fun i => show primeOfBits 10 521 from ⟨by norm_num, by norm_num, by norm_num⟩)).1

/-! ## Slugify (tools.go lines 209-220)

`Slugify` rejects the empty string, lower-cases the input
(`strings.ToLower`), replaces every match of the regular expression
`[^a-z\d]+` — i.e. every maximal run of characters outside `[a-z0-9]` — by a
single hyphen (`ReplaceAllString`), trims hyphens from both ends
(`strings.Trim`), and rejects an empty remainder.  Case mapping is modelled
on the ASCII range (Unicode simple case mapping agrees there; code points
outside ASCII are left unchanged by the model). -/

/-- ASCII lower-casing, the fragment of `strings.ToLower` the claims exercise. -/
def goToLower (c : Char) : Char :=
  if 'A' ≤ c ∧ c ≤ 'Z' then Char.ofNat (c.toNat + 32) else c

/-- Does `c` match `[a-z0-9]` (the complement of the regex `[^a-z\d]`)? -/
def isAlnumLower (c : Char) : Bool :=
  ('a' ≤ c && c ≤ 'z') || ('0' ≤ c && c ≤ '9')

/-- `ReplaceAllString` of the regex `[^a-z\d]+` with "-": each maximal run of
characters outside `[a-z0-9]` is replaced by a single hyphen.  The Boolean
flag records whether the scanner is inside such a run (a hyphen has already
been emitted for it), exactly the state of the regex engine consuming `+`. -/
def replaceRunsAux : Bool → List Char → List Char
  | _, [] => []
  | inRun, c :: cs =>
    if isAlnumLower c then c :: replaceRunsAux false cs
    else if inRun then replaceRunsAux true cs
    else '-' :: replaceRunsAux true cs

def replaceRuns (l : List Char) : List Char := replaceRunsAux false l

/-- `strings.Trim(s, "-")`: drop hyphens from both ends. -/
def trimHyphens (l : List Char) : List Char :=
  ((l.dropWhile (fun c => c == '-')).reverse.dropWhile (fun c => c == '-')).reverse

/-- `Slugify` (tools.go lines 209-220), with the Go error messages verbatim. -/
def Slugify (s : String) : Except String String :=
  if s = "" then .error "empty string not permitted"
  else
    let slug := String.mk (trimHyphens (replaceRuns (s.toList.map goToLower)))
    if slug.length = 0 then .error "after removing characters, slug is zero length"
    else .ok slug

/-- Collapse consecutive hyphens to a single one (spec-side helper). -/
def dedupHyphens : List Char → List Char
  | [] => []
  | [c] => [c]
  | c :: d :: cs =>
    if c == '-' && d == '-' then dedupHyphens (d :: cs)
    else c :: dedupHyphens (d :: cs)

/-- Map a character outside `[a-z0-9]` to a hyphen (spec-side helper). -/
def toHyphen (c : Char) : Char := if isAlnumLower c then c else '-'

/-- Spec-side formulation of `Slugify`, written from the spec's words, to be
compared with the source-side definition: lower-case the input; replace each
character outside `[a-z0-9]` by a hyphen and collapse consecutive hyphens, so
every maximal run becomes a single hyphen; trim hyphens at both ends; fail
with the empty-result error exactly when nothing alphanumeric survives. -/
def slugifySpecModel (s : String) : Except String String :=
  if s = "" then .error "empty string not permitted"
  else
    let lowered := s.toList.map goToLower
    if lowered.any isAlnumLower then
      .ok (String.mk (trimHyphens (dedupHyphens (lowered.map toHyphen))))
    else .error "after removing characters, slug is zero length"

/-! ### Equivalence of the source-side and spec-side normalization -/

theorem alnum_ne_hyphen (c : Char) (h : isAlnumLower c = true) : (c == '-') = false := by
  cases hb : (c == '-') with
  | false => rfl
  | true =>
    have hc : c = '-' := by simpa using hb
    subst hc
    simp [isAlnumLower] at h

theorem dedupHyphens_cons_ne (c : Char) (l : List Char) (h : (c == '-') = false) :
    dedupHyphens (c :: l) = c :: dedupHyphens l := by
  cases l with
  | nil => rfl
  | cons d r => simp [dedupHyphens, h]

theorem replaceRunsAux_eq_dedup (l : List Char) :
    replaceRunsAux false l = dedupHyphens (l.map toHyphen) ∧
    dedupHyphens ('-' :: l.map toHyphen) = '-' :: replaceRunsAux true l := by
  induction l with
  | nil => exact ⟨rfl, rfl⟩
  | cons c cs ih =>
    by_cases hc : isAlnumLower c
    · have hth : toHyphen c = c := by simp [toHyphen, hc]
      have hne : (c == '-') = false := alnum_ne_hyphen c hc
      constructor
      · show (if isAlnumLower c then c :: replaceRunsAux false cs
          else if false then replaceRunsAux true cs else '-' :: replaceRunsAux true cs) = _
        rw [if_pos hc, List.map_cons, hth, dedupHyphens_cons_ne c _ hne, ih.1]
      · show dedupHyphens ('-' :: toHyphen c :: cs.map toHyphen) =
          '-' :: (if isAlnumLower c then c :: replaceRunsAux false cs
            else if true then replaceRunsAux true cs else '-' :: replaceRunsAux true cs)
        rw [if_pos hc, hth]
        have h1 : dedupHyphens ('-' :: c :: cs.map toHyphen) =
            '-' :: dedupHyphens (c :: cs.map toHyphen) := by
          simp [dedupHyphens, hne]
        rw [h1, dedupHyphens_cons_ne c _ hne, ih.1]
    · have hcb : isAlnumLower c = false := by simpa using hc
      have hth : toHyphen c = '-' := by simp [toHyphen, hcb]
      constructor
      · show (if isAlnumLower c then c :: replaceRunsAux false cs
          else if false then replaceRunsAux true cs else '-' :: replaceRunsAux true cs) = _
        rw [hcb]
        simp only [Bool.false_eq_true, if_false, List.map_cons, hth]
        exact ih.2.symm
      · show dedupHyphens ('-' :: toHyphen c :: cs.map toHyphen) =
          '-' :: (if isAlnumLower c then c :: replaceRunsAux false cs
            else if true then replaceRunsAux true cs else '-' :: replaceRunsAux true cs)
        rw [hcb, hth]
        simp only [Bool.false_eq_true, if_false, if_true]
        have h1 : dedupHyphens ('-' :: '-' :: cs.map toHyphen) =
            dedupHyphens ('-' :: cs.map toHyphen) := by
          simp [dedupHyphens]
        rw [h1, ih.2]

theorem mem_replaceRunsAux (l : List Char) (c : Char) (ha : isAlnumLower c = true) :
    ∀ b : Bool, c ∈ l → c ∈ replaceRunsAux b l := by
  induction l with
  | nil => intro b hm; simp at hm
  | cons d cs ih =>
    intro b hm
    rcases List.mem_cons.mp hm with he | hm2
    · subst he
      have h : replaceRunsAux b (c :: cs) = c :: replaceRunsAux false cs := by
        simp [replaceRunsAux, ha]
      rw [h]
      exact List.mem_cons_self _ _
    · by_cases hd : isAlnumLower d
      · have h : replaceRunsAux b (d :: cs) = d :: replaceRunsAux false cs := by
          simp [replaceRunsAux, hd]
        rw [h]
        exact List.mem_cons_of_mem _ (ih false hm2)
      · have hdb : isAlnumLower d = false := by simpa using hd
        cases b
        · have h : replaceRunsAux false (d :: cs) = '-' :: replaceRunsAux true cs := by
            simp [replaceRunsAux, hdb]
          rw [h]
          exact List.mem_cons_of_mem _ (ih true hm2)
        · have h : replaceRunsAux true (d :: cs) = replaceRunsAux true cs := by
            simp [replaceRunsAux, hdb]
          rw [h]
          exact ih true hm2

theorem replaceRunsAux_all_nonalnum (l : List Char) (h : ∀ c ∈ l, isAlnumLower c = false) :
    replaceRunsAux true l = [] ∧
    (replaceRunsAux false l = [] ∨ replaceRunsAux false l = ['-']) := by
  induction l with
  | nil => exact ⟨rfl, Or.inl rfl⟩
  | cons d cs ih =>
    have hd : isAlnumLower d = false := h d (List.mem_cons_self d cs)
    have hrec := ih (fun c hc => h c (List.mem_cons_of_mem d hc))
    constructor
    · show (if isAlnumLower d then d :: replaceRunsAux false cs
        else if true then replaceRunsAux true cs else '-' :: replaceRunsAux true cs) = []
      rw [hd]
      simpa using hrec.1
    · right
      show (if isAlnumLower d then d :: replaceRunsAux false cs
        else if false then replaceRunsAux true cs else '-' :: replaceRunsAux true cs) = ['-']
      rw [hd]
      simpa using hrec.1

theorem mem_dropWhile_of_mem {α : Type} (p : α → Bool) (l : List α) (c : α)
    (hm : c ∈ l) (hp : p c = false) : c ∈ l.dropWhile p := by
  induction l with
  | nil => simp at hm
  | cons a t ih =>
    rw [List.dropWhile_cons]
    by_cases hpa : p a
    · rw [if_pos hpa]
      rcases List.mem_cons.mp hm with he | hm2
      · subst he
        rw [hp] at hpa
        exact absurd hpa (by simp)
      · exact ih hm2
    · rw [if_neg hpa]
      exact hm

theorem mem_trimHyphens (l : List Char) (c : Char) (hm : c ∈ l) (hne : (c == '-') = false) :
    c ∈ trimHyphens l := by
  have h1 : c ∈ l.dropWhile (fun c => c == '-') := mem_dropWhile_of_mem _ l c hm hne
  have h2 : c ∈ (l.dropWhile (fun c => c == '-')).reverse := List.mem_reverse.mpr h1
  have h3 : c ∈ (l.dropWhile (fun c => c == '-')).reverse.dropWhile (fun c => c == '-') :=
    mem_dropWhile_of_mem _ _ c h2 hne
  exact List.mem_reverse.mpr h3

/-- C8: `Slugify` coincides with the spec's description — empty-input error
exactly on the empty string; otherwise lower-case, collapse every maximal run
of characters outside `[a-z0-9]` to one hyphen, trim hyphens, and fail with
the empty-result error exactly when nothing alphanumeric survives — and the
spec's concrete examples hold. -/
theorem slugify_matches_spec (s : String) :
    Slugify s = slugifySpecModel s ∧
    Slugify "now is the time" = .ok "now-is-the-time" ∧
    Slugify "hello world こんにちは世界" = .ok "hello-world" ∧
    Slugify "" = .error "empty string not permitted" ∧
    Slugify "こんにちは世界" = .error "after removing characters, slug is zero length" := by
  refine ⟨?_, by rfl, by rfl, by rfl, by rfl⟩
  by_cases hs : s = ""
  · simp [Slugify, slugifySpecModel, hs]
  · simp only [Slugify, slugifySpecModel, if_neg hs]
    set lowered := s.toList.map goToLower with hl
    have heq : replaceRuns lowered = dedupHyphens (lowered.map toHyphen) :=
      (replaceRunsAux_eq_dedup lowered).1
    by_cases ha : lowered.any isAlnumLower
    · obtain ⟨c, hcmem, hcal⟩ := List.any_eq_true.mp ha
      have h1 : c ∈ replaceRuns lowered := mem_replaceRunsAux lowered c hcal false hcmem
      have h2 : c ∈ trimHyphens (replaceRuns lowered) :=
        mem_trimHyphens _ c h1 (alnum_ne_hyphen c hcal)
      have h4 : ¬((String.mk (trimHyphens (replaceRuns lowered))).length = 0) := by
        show ¬((trimHyphens (replaceRuns lowered)).length = 0)
        intro h0
        exact List.ne_nil_of_mem h2 (List.eq_nil_of_length_eq_zero h0)
      rw [if_neg h4, if_pos ha, heq]
    · have hall : ∀ c ∈ lowered, isAlnumLower c = false := by
        intro c hc
        by_contra hcc
        exact ha (List.any_eq_true.mpr ⟨c, hc, by simpa using hcc⟩)
      have hz := (replaceRunsAux_all_nonalnum lowered hall).2
      have h0 : trimHyphens (replaceRuns lowered) = [] := by
        rcases hz with h | h
        · rw [replaceRuns] at *
          rw [h]
          rfl
        · rw [replaceRuns] at *
          rw [h]
          decide
      have h4 : (String.mk (trimHyphens (replaceRuns lowered))).length = 0 := by
        show (trimHyphens (replaceRuns lowered)).length = 0
        rw [h0]
        rfl
      rw [if_pos h4, if_neg ha]

/-! ## The configuration object and the upload pipeline (tools.go lines 25-30, 87-206)

The external collaborators appear as explicit data: `UploadEnv.detect` is
`http.DetectContentType` (the byte-pattern sniffer, out of scope per the
spec), `dirErr`/`parseErr` inject the outcomes of `CreateDirIfNotExist` and
`r.ParseMultipartForm`, and each `FilePart` carries the outcome of its own
`Open`/`Read`/`Seek`/`Create`/`Copy` calls.  A `Read` of an empty file also
fails in Go (it returns `io.EOF`), hence the `content.isEmpty` disjunct.
Because the methods have pointer receivers, each operation returns the
(possibly updated) `Tools` value alongside its result. -/

structure Tools where
  MaxFileSize : Nat
  AllowedFileTypes : List String
  MaxJSONSize : Nat
  AllowUnknownFields : Bool
deriving DecidableEq

structure UploadedFile where
  NewFileName : String
  OriginalFileName : String
  FileSize : Nat
deriving DecidableEq

/-- One file part of the multipart body: its client-submitted filename, its
bytes, and the outcome of each injected I/O step (`true` = that call fails). -/
structure FilePart where
  Filename : String
  content : List Nat
  openErr : Bool
  readErr : Bool
  seekErr : Bool
  createErr : Bool
  copyErr : Bool
deriving DecidableEq

inductive UploadError
  | dirCreateFailed
  | tooBig
  | openFailed
  | readFailed
  | typeNotPermitted
  | seekFailed
  | createFailed
  | copyFailed
deriving DecidableEq

structure UploadEnv where
  detect : List Nat → String
  dirErr : Bool
  parseErr : Bool

/-- `strings.EqualFold` on the ASCII range (MIME types are ASCII). -/
def eqFold (a b : String) : Bool :=
  a.toList.map goToLower == b.toList.map goToLower

/-- `filepath.Ext`: the suffix from the final dot of the final path element;
empty when there is no dot.  The input list is the reversed filename. -/
def extSearch : List Char → List Char → String
  | [], _ => ""
  | c :: cs, acc =>
    if c = '.' then String.mk ('.' :: acc)
    else if c = '/' then ""
    else extSearch cs (c :: acc)

def filepathExt (s : String) : String := extSearch s.toList.reverse []

/-- The body of the per-part closure (tools.go lines 125-185): open, sniff the
first 512 bytes, check the allow-list case-insensitively (empty list = allow
all), seek back, assign the name (25 random characters plus the original
extension when renaming), create and copy. -/
def processPart (detect : List Nat → String) (allowedTypes : List String)
    (renameFile : Bool) (rnd : Nat → Nat) (p : FilePart) :
    Except UploadError UploadedFile :=
  if p.openErr then .error .openFailed
  else if p.readErr || p.content.isEmpty then .error .readFailed
  else
    let fileType := detect (p.content.take 512)
    let allowed := if allowedTypes.isEmpty then true
      else allowedTypes.any (fun t => eqFold fileType t)
    if !allowed then .error .typeNotPermitted
    else if p.seekErr then .error .seekFailed
    else
      let newName := if renameFile then RandomString 25 [] rnd ++ filepathExt p.Filename
        else p.Filename
      if p.createErr then .error .createFailed
      else if p.copyErr then .error .copyFailed
      else .ok ⟨newName, p.Filename, p.content.length⟩

/-- The assignment `uploadedFiles, err = closure(uploadedFiles)`: on success
the closure returns the extended batch, on failure it returns `nil, err` —
so the accumulated batch is overwritten with nil. -/
def uploadStep (detect : List Nat → String) (allowedTypes : List String)
    (renameFile : Bool) (rnd : Nat → Nat) (p : FilePart) (acc : List UploadedFile) :
    List UploadedFile × Option UploadError :=
  match processPart detect allowedTypes renameFile rnd p with
  | .ok f => (acc ++ [f], none)
  | .error e => ([], some e)

/-- The loop over the file parts (tools.go lines 123-190); `rnd i` is the
randomness consumed by part `i`'s `RandomString(25)` call. -/
def uploadLoop (detect : List Nat → String) (allowedTypes : List String)
    (renameFile : Bool) (rnd : Nat → Nat → Nat) :
    List FilePart → Nat → List UploadedFile → List UploadedFile × Option UploadError
  | [], _, acc => (acc, none)
  | p :: rest, i, acc =>
    match uploadStep detect allowedTypes renameFile (rnd i) p acc with
    | (acc2, none) => uploadLoop detect allowedTypes renameFile rnd rest (i + 1) acc2
    | (acc2, some e) => (acc2, some e)

/-- `UploadFiles` (tools.go lines 101-193).  Note line 109-111: when the
configured `MaxFileSize` is zero the method assigns the 1 GiB default to the
field of its pointer receiver, mutating the caller's configuration; the
updated `Tools` value is the first component of the result. -/
def UploadFiles (t : Tools) (env : UploadEnv) (parts : List FilePart)
    (rnd : Nat → Nat → Nat) (rename : List Bool) :
    Tools × List UploadedFile × Option UploadError :=
  let renameFile := rename.headD true
  let t2 := if t.MaxFileSize = 0 then { t with MaxFileSize := 1024 * 1024 * 1024 } else t
  if env.dirErr then (t2, [], some .dirCreateFailed)
  else if env.parseErr then (t2, [], some .tooBig)
  else
    let res := uploadLoop env.detect t2.AllowedFileTypes renameFile rnd parts 0 []
    (t2, res.1, res.2)

/-- The outcome of `UploadOneFile`: a descriptor, an error, or the
index-out-of-range panic of `files[0]` on an empty slice. -/
inductive OneFileResult
  | ok (f : UploadedFile)
  | err (e : UploadError)
  | outOfRange
deriving DecidableEq

/-- `UploadOneFile` (tools.go lines 87-99): delegate to `UploadFiles`, return
the error if any, otherwise `files[0]` — which panics when the batch is empty. -/
def UploadOneFile (t : Tools) (env : UploadEnv) (parts : List FilePart)
    (rnd : Nat → Nat → Nat) (rename : List Bool) : Tools × OneFileResult :=
  let renameFile := rename.headD true
  let r := UploadFiles t env parts rnd [renameFile]
  match r.2.2 with
  | some e => (r.1, .err e)
  | none =>
    match r.2.1 with
    | [] => (r.1, .outOfRange)
    | f :: _ => (r.1, .ok f)

/-- C4: `UploadOneFile` is NOT total.  On a request with zero file parts
`UploadFiles` succeeds with an empty batch and `files[0]` is an index
out of range panic, not a descriptor or an error. -/
theorem uploadOneFile_empty_panics :
    (UploadOneFile ⟨0, [], 0, false⟩ ⟨fun _ => "text/plain", false, false⟩ []
      (fun _ _ => 0) []).2 = OneFileResult.outOfRange := rfl

theorem uploadLoop_error_nil (detect : List Nat → String) (allowedTypes : List String)
    (renameFile : Bool) (rnd : Nat → Nat → Nat) :
    ∀ (parts : List FilePart) (i : Nat) (acc : List UploadedFile) (e : UploadError),
      (uploadLoop detect allowedTypes renameFile rnd parts i acc).2 = some e →
      (uploadLoop detect allowedTypes renameFile rnd parts i acc).1 = [] := by
  intro parts
  induction parts with
  | nil =>
    intro i acc e h
    simp [uploadLoop] at h
  | cons p rest ih =>
    intro i acc e h
    cases hp : processPart detect allowedTypes renameFile (rnd i) p with
    | ok f =>
      have hstep : uploadLoop detect allowedTypes renameFile rnd (p :: rest) i acc =
          uploadLoop detect allowedTypes renameFile rnd rest (i + 1) (acc ++ [f]) := by
        simp [uploadLoop, uploadStep, hp]
      rw [hstep] at h ⊢
      exact ih _ _ _ h
    | error e2 =>
      have hstep : uploadLoop detect allowedTypes renameFile rnd (p :: rest) i acc =
          ([], some e2) := by
        simp [uploadLoop, uploadStep, hp]
      rw [hstep]

/-- C1 (amended): when any step of any part fails, `UploadFiles` returns an
empty (nil) batch together with the error — the descriptors accepted before
the failure are discarded, because the failing closure returns `nil, err` and
that nil overwrites the accumulated slice. -/
theorem uploadFiles_error_empty_batch (t : Tools) (env : UploadEnv) (parts : List FilePart)
    (rnd : Nat → Nat → Nat) (rename : List Bool) (e : UploadError)
    (h : (UploadFiles t env parts rnd rename).2.2 = some e) :
    (UploadFiles t env parts rnd rename).2.1 = [] := by
  by_cases hd : env.dirErr
  · simp [UploadFiles, hd]
  · by_cases hp : env.parseErr
    · simp [UploadFiles, hd, hp]
    · simp only [UploadFiles, hd, hp, Bool.false_eq_true, if_false] at h ⊢
      exact uploadLoop_error_nil _ _ _ _ parts 0 [] e h

/-- Witness for C1's amended theorem at a concrete failing upload. -/
theorem uploadFiles_error_empty_batch_witness :
    (UploadFiles ⟨1, ["image/png"], 0, false⟩
      ⟨fun bs => if bs = [137] then "image/png" else "text/plain", false, false⟩
      [⟨"b.txt", [1], false, false, false, false, false⟩]
      (fun _ _ => 0) [false]).2.1 = [] :=
  uploadFiles_error_empty_batch _ _ _ _ _ UploadError.typeNotPermitted rfl

/-- Counterexample to C1 as stated: with an allow-list of `image/png`, a first
part that sniffs as `image/png` followed by a second that sniffs as
`text/plain`, the call fails and returns the EMPTY batch together with the
error — not the partial batch: the same first part alone is accepted and
yields a descriptor. -/
theorem uploadFiles_discards_partial_batch_cex :
    (UploadFiles ⟨1, ["image/png"], 0, false⟩
        ⟨fun bs => if bs = [137] then "image/png" else "text/plain", false, false⟩
        [⟨"a.png", [137], false, false, false, false, false⟩,
         ⟨"b.txt", [1], false, false, false, false, false⟩]
        (fun _ _ => 0) [false]).2
      = ([], some UploadError.typeNotPermitted) ∧
    (UploadFiles ⟨1, ["image/png"], 0, false⟩
        ⟨fun bs => if bs = [137] then "image/png" else "text/plain", false, false⟩
        [⟨"a.png", [137], false, false, false, false, false⟩]
        (fun _ _ => 0) [false]).2
      = ([⟨"a.png", "a.png", 1⟩], none) := ⟨rfl, rfl⟩

/-! ## The JSON decode pipeline (tools.go lines 239-298)

`ReadJSON` wraps the body in `http.MaxBytesReader(w, r.Body, maxBytes)`,
builds a `json.Decoder`, optionally calls `DisallowUnknownFields`, decodes one
value, classifies the error, and then requires a second `Decode` to report
`io.EOF`.

Stream model.  `MaxBytesReader` delivers exactly the first `maxBytes` bytes
of an oversized body: the read that crosses the limit is truncated to the
remaining allowance (`n = int(l.n)` in net/http) and returns it together with
the error `http: request body too large` — the limit-exceeding byte is read
from the underlying stream only to detect the overflow and is never
delivered.  `json.Decoder` buffers delivered bytes and parses them before
surfacing a stored read error.  So the decoder observes: the whole body
followed by end-of-file when the body fits in `maxBytes`, and otherwise the
first `maxBytes` bytes followed by the too-large error (`cappedStream`).

Decoder model.  `Decode` scans exactly one syntactically complete JSON value
and only then unmarshals it, checking field names and types — so a syntax
error anywhere in the first value wins over unknown-field/type errors, which
are reported in stream order.  The scanner reports the end of a top-level
object or array at its closing bracket (`scanEndObject`/`scanEndArray`, no
lookahead), but the end of a top-level number, string, `null`, `true` or
`false` only on the byte after the value (`scanEnd` is delayed one byte; that
byte stays buffered for the next `Decode`) or at true end-of-file, where the
decoder feeds the scanner a virtual space.  Hence a `Decode` that runs out of
delivered bytes while it still needs input — mid-value, or at the delayed end
of a top-level number/string/literal — reports `io.ErrUnexpectedEOF`
(mid-value) or success (delayed end) at true end-of-file, and the reader's
own too-large error in both situations under the byte cap; one that finds no
value at all reports `io.EOF`. -/

inductive Jvalue
  | jnull
  | jbool (b : Bool)
  | jnum (raw : String)
  | jstr (s : String)
  | jarr (elems : List Jvalue)
  | jobj (fields : List (String × Jvalue))

inductive StreamEnd
  | eof
  | tooLarge
deriving DecidableEq

/-- The error a single `dec.Decode` call reports, before `ReadJSON`
classifies it. -/
inductive DecErr
  | synErr
  | eofAtStart
  | unexpectedEnd
  | tooLarge
deriving DecidableEq

/-- JSON insignificant whitespace, as in `encoding/json`. -/
def isWsChar (c : Char) : Bool :=
  c == ' ' || c == '\t' || c == '\n' || c == '\r'

def skipWs (cs : List Char) : List Char := cs.dropWhile isWsChar

/-- The error for running out of delivered bytes mid-value. -/
def endErr : StreamEnd → DecErr
  | .eof => .unexpectedEnd
  | .tooLarge => .tooLarge

/-- Match the remaining characters of a literal (`null`, `true`, `false`). -/
def parseLit (v : Jvalue) (en : StreamEnd) : List Char → List Char →
    Except DecErr (Jvalue × List Char)
  | [], rest => .ok (v, rest)
  | _ :: _, [] => .error (endErr en)
  | e :: es, c :: cs => if c = e then parseLit v en es cs else .error .synErr

/-- Scan a JSON string body after the opening quote.  Escapes other than the
single-character ones are modelled as unsupported (none of the claims, nor
any repository test, exercises `\u`).  The fuel only bounds recursion depth;
one character is consumed per unit, so any fuel above the input length is
never exhausted. -/
def parseStr (fuel : Nat) (en : StreamEnd) (cs : List Char) (acc : List Char) :
    Except DecErr (String × List Char) :=
  match fuel, cs with
  | 0, _ => .error .synErr
  | _ + 1, [] => .error (endErr en)
  | f + 1, c :: cs =>
    if c = '"' then .ok (String.mk acc.reverse, cs)
    else if c = '\\' then
      match cs with
      | [] => .error (endErr en)
      | e :: cs2 =>
        if e = '"' then parseStr f en cs2 ('"' :: acc)
        else if e = '\\' then parseStr f en cs2 ('\\' :: acc)
        else if e = '/' then parseStr f en cs2 ('/' :: acc)
        else if e = 'b' then parseStr f en cs2 (Char.ofNat 8 :: acc)
        else if e = 'f' then parseStr f en cs2 (Char.ofNat 12 :: acc)
        else if e = 'n' then parseStr f en cs2 ('\n' :: acc)
        else if e = 'r' then parseStr f en cs2 ('\r' :: acc)
        else if e = 't' then parseStr f en cs2 ('\t' :: acc)
        else .error .synErr
    else if c.toNat < 32 then .error .synErr
    else parseStr f en cs (c :: acc)

/-- Optional fraction part of a number. -/
def parseFrac (en : StreamEnd) (cs : List Char) :
    Except DecErr (List Char × List Char) :=
  match cs with
  | '.' :: r =>
    let ds := r.takeWhile Char.isDigit
    let rest := r.dropWhile Char.isDigit
    if ds.isEmpty then (if r.isEmpty then .error (endErr en) else .error .synErr)
    else .ok ('.' :: ds, rest)
  | _ => .ok ([], cs)

/-- Optional exponent part of a number. -/
def parseExp (en : StreamEnd) (cs : List Char) :
    Except DecErr (List Char × List Char) :=
  match cs with
  | [] => .ok ([], [])
  | e :: r =>
    if e = 'e' ∨ e = 'E' then
      let sr := match r with
        | s :: r2 => if s = '+' ∨ s = '-' then ([s], r2) else (([] : List Char), r)
        | [] => ([], r)
      let ds := sr.2.takeWhile Char.isDigit
      let rest := sr.2.dropWhile Char.isDigit
      if ds.isEmpty then (if sr.2.isEmpty then .error (endErr en) else .error .synErr)
      else .ok (e :: (sr.1 ++ ds), rest)
    else .ok ([], cs)

/-- A JSON number per the `encoding/json` grammar:
`-?(0|[1-9][0-9]*)(\.[0-9]+)?([eE][+-]?[0-9]+)?`; the terminating delimiter is
not consumed.  The raw text is kept — only its type matters to the claims. -/
def parseNum (en : StreamEnd) (cs : List Char) :
    Except DecErr (String × List Char) :=
  let sc := match cs with
    | c :: r => if c = '-' then (([c] : List Char), r) else ([], cs)
    | [] => ([], cs)
  match sc.2 with
  | [] => .error (endErr en)
  | c :: r =>
    if ¬ c.isDigit then .error .synErr
    else
      let leadZeroBad : Bool := (c == '0') && (match r with
        | d :: _ => d.isDigit
        | [] => false)
      if leadZeroBad then .error .synErr
      else
        let ir := if c = '0' then (([c] : List Char), r)
          else (sc.2.takeWhile Char.isDigit, sc.2.dropWhile Char.isDigit)
        match parseFrac en ir.2 with
        | .error err => .error err
        | .ok (fr, rest2) =>
          match parseExp en rest2 with
          | .error err => .error err
          | .ok (ex, rest3) => .ok (String.mk (sc.1 ++ ir.1 ++ fr ++ ex), rest3)

mutual

/-- One JSON value, dispatched on its first character (the scanner of
`encoding/json`).  All recursion is structural on the fuel; every unit of
fuel spent coincides with at least one character consumed per three calls, so
the generous initial fuel of `decodeOne` is never exhausted. -/
def parseVal (fuel : Nat) (en : StreamEnd) (cs : List Char) :
    Except DecErr (Jvalue × List Char) :=
  match fuel with
  | 0 => .error .synErr
  | f + 1 =>
    match cs with
    | [] => .error (endErr en)
    | c :: r =>
      if c = 'n' then parseLit .jnull en ['u', 'l', 'l'] r
      else if c = 't' then parseLit (.jbool true) en ['r', 'u', 'e'] r
      else if c = 'f' then parseLit (.jbool false) en ['a', 'l', 's', 'e'] r
      else if c = '"' then
        match parseStr f en r [] with
        | .error e => .error e
        | .ok (s, rest) => .ok (.jstr s, rest)
      else if c = '-' ∨ c.isDigit then
        match parseNum en cs with
        | .error e => .error e
        | .ok (s, rest) => .ok (.jnum s, rest)
      else if c = '[' then parseArr f en (skipWs r)
      else if c = '{' then parseObjStart f en (skipWs r)
      else .error .synErr

/-- After `[`: either `]` or a non-empty element list. -/
def parseArr (fuel : Nat) (en : StreamEnd) (cs : List Char) :
    Except DecErr (Jvalue × List Char) :=
  match fuel with
  | 0 => .error .synErr
  | f + 1 =>
    match cs with
    | [] => .error (endErr en)
    | c :: r =>
      if c = ']' then .ok (.jarr [], r)
      else parseElems f en cs []

def parseElems (fuel : Nat) (en : StreamEnd) (cs : List Char) (acc : List Jvalue) :
    Except DecErr (Jvalue × List Char) :=
  match fuel with
  | 0 => .error .synErr
  | f + 1 =>
    match parseVal f en cs with
    | .error e => .error e
    | .ok (v, rest) =>
      match skipWs rest with
      | [] => .error (endErr en)
      | c :: r2 =>
        if c = ',' then parseElems f en (skipWs r2) (v :: acc)
        else if c = ']' then .ok (.jarr (v :: acc).reverse, r2)
        else .error .synErr

/-- After `{`: either `}` or a non-empty member list. -/
def parseObjStart (fuel : Nat) (en : StreamEnd) (cs : List Char) :
    Except DecErr (Jvalue × List Char) :=
  match fuel with
  | 0 => .error .synErr
  | f + 1 =>
    match cs with
    | [] => .error (endErr en)
    | c :: r =>
      if c = '}' then .ok (.jobj [], r)
      else parseMembers f en cs []

def parseMembers (fuel : Nat) (en : StreamEnd) (cs : List Char)
    (acc : List (String × Jvalue)) : Except DecErr (Jvalue × List Char) :=
  match fuel with
  | 0 => .error .synErr
  | f + 1 =>
    match cs with
    | [] => .error (endErr en)
    | c :: r =>
      if c = '"' then
        match parseStr f en r [] with
        | .error e => .error e
        | .ok (k, rest) =>
          match skipWs rest with
          | [] => .error (endErr en)
          | c2 :: r2 =>
            if c2 = ':' then
              match parseVal f en (skipWs r2) with
              | .error e => .error e
              | .ok (v, rest2) =>
                match skipWs rest2 with
                | [] => .error (endErr en)
                | c3 :: r3 =>
                  if c3 = ',' then parseMembers f en (skipWs r3) ((k, v) :: acc)
                  else if c3 = '}' then .ok (.jobj ((k, v) :: acc).reverse, r3)
                  else .error .synErr
            else .error .synErr
      else .error .synErr

end

/-- The declared shape of a destination struct field: Go string, number,
bool, or `interface` (anything).  JSON `null` leaves any Go field at its zero
value, so it matches every type. -/
inductive JTy
  | tstr
  | tnum
  | tbool
  | tany
deriving DecidableEq

/-- The destination's declared shape: its JSON field names and types
(a flat struct, which is what the repository's tests decode into). -/
abbrev Schema := List (String × JTy)

def tyMatches : Jvalue → JTy → Bool
  | _, .tany => true
  | .jnull, _ => true
  | .jstr _, .tstr => true
  | .jnum _, .tnum => true
  | .jbool _, .tbool => true
  | _, _ => false

/-- The classified errors of `ReadJSON` (tools.go lines 255-295), one
constructor per branch of the switch; `sizeExceeded` carries the limit the
message names, `unknownField`/`wrongTypeField` the field the message names. -/
inductive JSONErr
  | badlyFormedAt
  | badlyFormed
  | wrongTypeField (f : String)
  | wrongTypeAt
  | empty
  | unknownField (f : String)
  | sizeExceeded (maxBytes : Nat)
  | multipleValues
deriving DecidableEq

/-- The Go error messages, verbatim (offsets elided). -/
def JSONErr.message : JSONErr → String
  | .badlyFormedAt => "body contains badly-formed JSON (at character ?)"
  | .badlyFormed => "body contains badly-formed JSON"
  | .wrongTypeField f => "body contains incorrect JSON type for field " ++ f
  | .wrongTypeAt => "body contains incorrect JSON type (at character ?)"
  | .empty => "body must not be empty"
  | .unknownField f => "body contains unknown key " ++ f
  | .sizeExceeded m => "body must not be larger than " ++ toString m ++ " bytes"
  | .multipleValues => "body must contain only one JSON value"

/-- The unmarshal phase of the first `Decode` over an object's members, in
stream order: a known field must type-match, an unknown field is an error
exactly when `DisallowUnknownFields` was set (tools.go lines 250-252). -/
def checkFields (allowUnknown : Bool) (schema : Schema) :
    List (String × Jvalue) → Except JSONErr Unit
  | [] => .ok ()
  | (k, v) :: rest =>
    match List.lookup k schema with
    | some ty =>
      if tyMatches v ty then checkFields allowUnknown schema rest
      else .error (.wrongTypeField k)
    | none =>
      if allowUnknown then checkFields allowUnknown schema rest
      else .error (.unknownField k)

/-- Unmarshal the scanned value into the destination struct: an object is
checked field by field, `null` is a no-op, anything else is a top-level
`UnmarshalTypeError`. -/
def checkTop (allowUnknown : Bool) (schema : Schema) : Jvalue → Except JSONErr Unit
  | .jobj fs => checkFields allowUnknown schema fs
  | .jnull => .ok ()
  | _ => .error .wrongTypeAt

/-- The switch of tools.go lines 260-288 over the first `Decode`'s error. -/
def classifyDec (maxBytes : Nat) : DecErr → JSONErr
  | .synErr => .badlyFormedAt
  | .unexpectedEnd => .badlyFormed
  | .eofAtStart => .empty
  | .tooLarge => .sizeExceeded maxBytes

/-- `maxBytes := 1024 * 1024; if t.MaxJSONSize != 0 { maxBytes = t.MaxJSONSize }`
(tools.go lines 241-244). -/
def effectiveMaxBytes (t : Tools) : Nat :=
  if t.MaxJSONSize ≠ 0 then t.MaxJSONSize else 1024 * 1024

/-- What the decoder observes through `http.MaxBytesReader`: the whole body
then end-of-file when it fits, otherwise exactly the first `maxBytes` bytes
then the too-large error (the crossing read is truncated to the remaining
allowance, so the limit-exceeding byte is never delivered). -/
def cappedStream (maxBytes : Nat) (body : List Char) : List Char × StreamEnd :=
  if body.length ≤ maxBytes then (body, .eof)
  else (body.take maxBytes, .tooLarge)

/-- Does the scanner need one byte of lookahead past the value to report its
end?  A top-level number, string, `null`, `true` or `false` ends only on the
following byte (`scanEnd` is delayed one byte) or at true end-of-file; an
object or array ends at its closing bracket with no lookahead
(`scanEndObject`/`scanEndArray`). -/
def needsLookahead : Jvalue → Bool
  | .jobj _ => false
  | .jarr _ => false
  | _ => true

/-- One `dec.Decode` call: skip whitespace; no token at all is `io.EOF` (or
the reader's error under the cap); otherwise scan one value.  A value whose
scan consumes every delivered byte and still needs its byte of delayed
lookahead completes at true end-of-file (the decoder feeds a virtual space)
but surfaces the reader's error under the byte cap.  The initial fuel exceeds
any number of parser steps possible on the input (at least one character is
consumed per three fuel units). -/
def decodeOne (en : StreamEnd) (cs : List Char) : Except DecErr (Jvalue × List Char) :=
  match skipWs cs with
  | [] => .error (match en with | .eof => .eofAtStart | .tooLarge => .tooLarge)
  | c :: r =>
    match parseVal (4 * cs.length + 16) en (c :: r) with
    | .error e => .error e
    | .ok (v, rest) =>
      match en, rest with
      | .tooLarge, [] => if needsLookahead v then .error .tooLarge else .ok (v, [])
      | _, _ => .ok (v, rest)

/-- The first `dec.Decode(data)` with its error classification: scan one
value, then unmarshal it against the destination's shape. -/
def firstDecode (allowUnknown : Bool) (schema : Schema) (maxBytes : Nat)
    (en : StreamEnd) (cs : List Char) : Except JSONErr (Jvalue × List Char) :=
  match decodeOne en cs with
  | .error e => .error (classifyDec maxBytes e)
  | .ok (v, rest) =>
    match checkTop allowUnknown schema v with
    | .error e => .error e
    | .ok _ => .ok (v, rest)

/-- Whether the second `dec.Decode of the empty struct` call reports `io.EOF`: it does
exactly when only whitespace remains and the stream ends in true end-of-file
(under the byte cap the whitespace-skipping read returns the reader's error
instead, and any non-whitespace character starts a value or a syntax error,
neither of which is `io.EOF`). -/
def secondDecodeIsEOF (en : StreamEnd) (rest : List Char) : Bool :=
  (skipWs rest).isEmpty && (match en with | .eof => true | .tooLarge => false)

/-- `ReadJSON` (tools.go lines 240-298).  The method never assigns to its
receiver's fields, so the `Tools` value is returned unchanged. -/
def ReadJSON (t : Tools) (schema : Schema) (body : List Char) :
    Tools × Except JSONErr Jvalue :=
  let maxBytes := effectiveMaxBytes t
  let st := cappedStream maxBytes body
  match firstDecode t.AllowUnknownFields schema maxBytes st.2 st.1 with
  | .error e => (t, .error e)
  | .ok (v, rest) =>
    if secondDecodeIsEOF st.2 rest then (t, .ok v)
    else (t, .error .multipleValues)

/-- C2 (amended): `ReadJSON` never changes the configuration; `UploadFiles`
preserves `AllowedFileTypes`, `MaxJSONSize` and `AllowUnknownFields` and a
non-zero `MaxFileSize`, but overwrites a zero `MaxFileSize` with the 1 GiB
default in the caller's configuration object. -/
theorem config_frame (t : Tools) (env : UploadEnv) (parts : List FilePart)
    (rnd : Nat → Nat → Nat) (rename : List Bool) (schema : Schema) (body : List Char) :
    (ReadJSON t schema body).1 = t ∧
    (UploadFiles t env parts rnd rename).1 =
      (if t.MaxFileSize = 0 then { t with MaxFileSize := 1024 * 1024 * 1024 } else t) ∧
    (UploadFiles t env parts rnd rename).1.AllowedFileTypes = t.AllowedFileTypes ∧
    (UploadFiles t env parts rnd rename).1.MaxJSONSize = t.MaxJSONSize ∧
    (UploadFiles t env parts rnd rename).1.AllowUnknownFields = t.AllowUnknownFields := by
  have h1 : (ReadJSON t schema body).1 = t := by
    unfold ReadJSON
    dsimp only
    split
    · rfl
    · split <;> rfl
  have h2 : (UploadFiles t env parts rnd rename).1 =
      (if t.MaxFileSize = 0 then { t with MaxFileSize := 1024 * 1024 * 1024 } else t) := by
    unfold UploadFiles
    dsimp only
    split
    · rfl
    · split <;> rfl
  refine ⟨h1, h2, ?_, ?_, ?_⟩ <;> rw [h2] <;> by_cases h0 : t.MaxFileSize = 0 <;> simp [h0]

/-- Counterexample to C2 as stated: calling `UploadFiles` with a
configuration whose `MaxFileSize` is zero leaves the configuration's
`MaxFileSize` equal to 1 GiB after the call, not zero as before it. -/
theorem config_mutated_cex :
    ((UploadFiles ⟨0, ["image/png"], 0, false⟩ ⟨fun _ => "text/plain", false, false⟩ []
      (fun _ _ => 0) []).1).MaxFileSize = 1024 * 1024 * 1024 ∧
    (⟨0, ["image/png"], 0, false⟩ : Tools).MaxFileSize = 0 := ⟨rfl, rfl⟩

/-- C6: for every body whose first decode is accepted, `ReadJSON` succeeds if
and only if the second decode attempt reports end of input, and any further
content makes it fail with the multiple-values error. -/
theorem readJSON_single_value_enforcement (t : Tools) (schema : Schema) (body : List Char)
    (v : Jvalue) (rest : List Char)
    (h : firstDecode t.AllowUnknownFields schema (effectiveMaxBytes t)
        (cappedStream (effectiveMaxBytes t) body).2
        (cappedStream (effectiveMaxBytes t) body).1 = .ok (v, rest)) :
    ((ReadJSON t schema body).2 = .ok v ↔
      secondDecodeIsEOF (cappedStream (effectiveMaxBytes t) body).2 rest = true) ∧
    (secondDecodeIsEOF (cappedStream (effectiveMaxBytes t) body).2 rest = false →
      (ReadJSON t schema body).2 = .error .multipleValues) := by
  have hr : ReadJSON t schema body =
      (if secondDecodeIsEOF (cappedStream (effectiveMaxBytes t) body).2 rest
        then (t, .ok v) else (t, .error .multipleValues)) := by
    unfold ReadJSON
    dsimp only
    rw [h]
  constructor
  · constructor
    · intro hok
      by_cases hb : secondDecodeIsEOF (cappedStream (effectiveMaxBytes t) body).2 rest = true
      · exact hb
      · rw [hr, if_neg hb] at hok
        simp at hok
    · intro hb
      rw [hr, if_pos hb]
  · intro hb
    rw [hr, if_neg (by rw [hb]; simp)]

/-- Witness for C6's theorem: a body holding two complete JSON values fails
with the multiple-values error. -/
theorem readJSON_single_value_enforcement_witness :
    (ReadJSON ⟨0, [], 0, false⟩ [] ("\x7b\x7d \x7b\x7d".toList)).2
      = .error .multipleValues :=
  (readJSON_single_value_enforcement ⟨0, [], 0, false⟩ [] ("\x7b\x7d \x7b\x7d".toList)
    (.jobj []) (" \x7b\x7d".toList) rfl).2 rfl

/-- The first key of the object, in stream order, that is not declared in the
destination's shape — the field Go's decoder names in its unknown-field
error. -/
def firstUnknown (schema : Schema) : List (String × Jvalue) → Option String
  | [] => none
  | (k, _) :: rest =>
    if (List.lookup k schema).isNone then some k else firstUnknown schema rest

theorem checkFields_allow (schema : Schema) (fs : List (String × Jvalue))
    (h3 : ∀ p ∈ fs, ∀ ty, List.lookup p.1 schema = some ty → tyMatches p.2 ty = true) :
    checkFields true schema fs = .ok () := by
  induction fs with
  | nil => rfl
  | cons p rest ih =>
    obtain ⟨k, v⟩ := p
    have ihr := ih (fun q hq ty hty => h3 q (List.mem_cons_of_mem _ hq) ty hty)
    cases hl : List.lookup k schema with
    | none =>
      show (match List.lookup k schema with
        | some ty => if tyMatches v ty then checkFields true schema rest
            else Except.error (.wrongTypeField k)
        | none => if true then checkFields true schema rest
            else Except.error (.unknownField k)) = .ok ()
      rw [hl]
      simpa using ihr
    | some ty =>
      have hty : tyMatches v ty = true :=
        h3 (k, v) (List.mem_cons_self _ _) ty hl
      show (match List.lookup k schema with
        | some ty => if tyMatches v ty then checkFields true schema rest
            else Except.error (.wrongTypeField k)
        | none => if true then checkFields true schema rest
            else Except.error (.unknownField k)) = .ok ()
      rw [hl]
      simpa [hty] using ihr

theorem checkFields_disallow (schema : Schema) (fs : List (String × Jvalue)) (k : String)
    (h3 : ∀ p ∈ fs, ∀ ty, List.lookup p.1 schema = some ty → tyMatches p.2 ty = true)
    (h4 : firstUnknown schema fs = some k) :
    checkFields false schema fs = .error (.unknownField k) := by
  induction fs with
  | nil => simp [firstUnknown] at h4
  | cons p rest ih =>
    obtain ⟨k0, v⟩ := p
    cases hl : List.lookup k0 schema with
    | none =>
      have hk : k0 = k := by
        have h4' := h4
        simp only [firstUnknown, hl, Option.isNone_none, if_pos] at h4'
        exact Option.some.inj h4'
      show (match List.lookup k0 schema with
        | some ty => if tyMatches v ty then checkFields false schema rest
            else Except.error (.wrongTypeField k0)
        | none => if false then checkFields false schema rest
            else Except.error (.unknownField k0)) = .error (.unknownField k)
      rw [hl, hk]
      simp
    | some ty =>
      have hty : tyMatches v ty = true :=
        h3 (k0, v) (List.mem_cons_self _ _) ty hl
      have h4' : firstUnknown schema rest = some k := by
        simpa [firstUnknown, hl] using h4
      have ihr := ih (fun q hq ty2 hty2 => h3 q (List.mem_cons_of_mem _ hq) ty2 hty2) h4'
      show (match List.lookup k0 schema with
        | some ty => if tyMatches v ty then checkFields false schema rest
            else Except.error (.wrongTypeField k0)
        | none => if false then checkFields false schema rest
            else Except.error (.unknownField k0)) = .error (.unknownField k)
      rw [hl]
      simpa [hty] using ihr

/-- C7: for a well-formed single-object body whose declared fields type-check
and which contains a key not in the destination's declared shape, `ReadJSON`
fails naming the first such key when unknown fields are disallowed, and
succeeds on the very same body when they are allowed. -/
theorem readJSON_unknown_field_policy (t : Tools) (schema : Schema) (body : List Char)
    (fields : List (String × Jvalue)) (rest : List Char) (k : String)
    (h1 : decodeOne (cappedStream (effectiveMaxBytes t) body).2
        (cappedStream (effectiveMaxBytes t) body).1 = .ok (.jobj fields, rest))
    (h2 : secondDecodeIsEOF (cappedStream (effectiveMaxBytes t) body).2 rest = true)
    (h3 : ∀ p ∈ fields, ∀ ty, List.lookup p.1 schema = some ty → tyMatches p.2 ty = true)
    (h4 : firstUnknown schema fields = some k) :
    (t.AllowUnknownFields = false →
      (ReadJSON t schema body).2 = .error (.unknownField k)) ∧
    (t.AllowUnknownFields = true →
      (ReadJSON t schema body).2 = .ok (.jobj fields)) := by
  constructor
  · intro hfalse
    have hfd : firstDecode t.AllowUnknownFields schema (effectiveMaxBytes t)
        (cappedStream (effectiveMaxBytes t) body).2
        (cappedStream (effectiveMaxBytes t) body).1 = .error (.unknownField k) := by
      unfold firstDecode
      rw [h1, hfalse]
      show (match checkTop false schema (.jobj fields) with
        | .error e => Except.error e
        | .ok _ => Except.ok ((Jvalue.jobj fields), rest)) = _
      rw [show checkTop false schema (.jobj fields) = checkFields false schema fields from rfl,
        checkFields_disallow schema fields k h3 h4]
    unfold ReadJSON
    dsimp only
    rw [hfd]
  · intro htrue
    have hfd : firstDecode t.AllowUnknownFields schema (effectiveMaxBytes t)
        (cappedStream (effectiveMaxBytes t) body).2
        (cappedStream (effectiveMaxBytes t) body).1 = .ok (.jobj fields, rest) := by
      unfold firstDecode
      rw [h1, htrue]
      show (match checkTop true schema (.jobj fields) with
        | .error e => Except.error e
        | .ok _ => Except.ok ((Jvalue.jobj fields), rest)) = _
      rw [show checkTop true schema (.jobj fields) = checkFields true schema fields from rfl,
        checkFields_allow schema fields h3]
    unfold ReadJSON
    dsimp only
    rw [hfd]
    dsimp only
    rw [if_pos h2]

/-- Witness for C7's theorem: decoding an object with the undeclared key "a"
into a shape declaring only "foo", with unknown fields disallowed, fails
naming "a". -/
theorem readJSON_unknown_field_policy_witness :
    (ReadJSON ⟨0, [], 0, false⟩ [("foo", JTy.tstr)] ("\x7b\"a\":1\x7d".toList)).2
      = .error (.unknownField "a") :=
  (readJSON_unknown_field_policy ⟨0, [], 0, false⟩ [("foo", JTy.tstr)]
    ("\x7b\"a\":1\x7d".toList) [("a", .jnum "1")] [] "a" rfl rfl
    (by
      intro p hp ty hty
      simp only [List.mem_singleton] at hp
      subst hp
      simp [List.lookup] at hty)
    rfl).1 rfl

/-- C5 (amended): a body strictly larger than the configured maximum JSON
size always fails, but the classification depends on where the cap falls:
when the first `Decode` consumes the whole delivered prefix while still
needing input — mid-value, or at the delayed end of a top-level
number/string/literal flush against the cap — the error is the size-exceeded
one naming the limit; when the scanner completes a first value within the
delivered bytes, the call fails with the multiple-values error instead. -/
theorem readJSON_oversize (t : Tools) (schema : Schema) (body : List Char)
    (h : effectiveMaxBytes t < body.length) :
    (∀ v : Jvalue, (ReadJSON t schema body).2 ≠ .ok v) ∧
    (decodeOne StreamEnd.tooLarge (body.take (effectiveMaxBytes t))
        = .error .tooLarge →
      (ReadJSON t schema body).2 = .error (.sizeExceeded (effectiveMaxBytes t))) ∧
    (∀ (v : Jvalue) (rest : List Char),
      firstDecode t.AllowUnknownFields schema (effectiveMaxBytes t) StreamEnd.tooLarge
          (body.take (effectiveMaxBytes t)) = .ok (v, rest) →
      (ReadJSON t schema body).2 = .error .multipleValues) := by
  have hcs : cappedStream (effectiveMaxBytes t) body =
      (body.take (effectiveMaxBytes t), StreamEnd.tooLarge) := by
    unfold cappedStream
    rw [if_neg (by omega)]
  have hR : ReadJSON t schema body =
      (match firstDecode t.AllowUnknownFields schema (effectiveMaxBytes t)
          StreamEnd.tooLarge (body.take (effectiveMaxBytes t)) with
       | .error e => (t, .error e)
       | .ok (v, rest) => if secondDecodeIsEOF StreamEnd.tooLarge rest then (t, .ok v)
          else (t, .error .multipleValues)) := by
    unfold ReadJSON
    dsimp only
    rw [hcs]
  have hsec : ∀ rest : List Char, secondDecodeIsEOF StreamEnd.tooLarge rest = false := by
    intro rest
    unfold secondDecodeIsEOF
    simp
  refine ⟨?_, ?_, ?_⟩
  · intro v hok
    rw [hR] at hok
    revert hok
    cases hfd : firstDecode t.AllowUnknownFields schema (effectiveMaxBytes t)
        StreamEnd.tooLarge (body.take (effectiveMaxBytes t)) with
    | error e => simp
    | ok vr =>
      obtain ⟨v2, rest⟩ := vr
      dsimp only
      rw [hsec rest]
      simp
  · intro hdec
    have hfd : firstDecode t.AllowUnknownFields schema (effectiveMaxBytes t)
        StreamEnd.tooLarge (body.take (effectiveMaxBytes t))
        = .error (.sizeExceeded (effectiveMaxBytes t)) := by
      unfold firstDecode
      rw [hdec]
      rfl
    rw [hR, hfd]
  · intro v rest hfd
    rw [hR, hfd]
    dsimp only
    rw [hsec rest]
    simp

/-- Counterexample to C5 as stated: with the maximum JSON size configured to
3 bytes, the 6-byte body whose 3-byte delivered prefix starts with the
complete value `[]` fails with the multiple-values error, not the
size-exceeded classification the claim requires. -/
theorem readJSON_oversize_cex :
    ("\x7b\x7dxxxx".toList.length = 6 ∧ effectiveMaxBytes ⟨0, [], 3, false⟩ = 3) ∧
    (ReadJSON ⟨0, [], 3, false⟩ [] ("\x7b\x7dxxxx".toList)).2 = .error .multipleValues ∧
    JSONErr.multipleValues ≠ JSONErr.sizeExceeded 3 :=
  ⟨⟨rfl, rfl⟩, rfl, by decide⟩

/-- Witness for C5's amended theorem at a concrete oversized body whose
delivered prefix holds a complete value. -/
theorem readJSON_oversize_witness :
    (ReadJSON ⟨0, [], 3, false⟩ [] ("\x7b\x7dyyyy".toList)).2 = .error .multipleValues :=
  (readJSON_oversize ⟨0, [], 3, false⟩ [] ("\x7b\x7dyyyy".toList) (by decide)).2.2
    (.jobj []) ("y".toList) rfl

end Toolkit
